import Mathlib

/-!
Shallow embedding of `numrs` (`src/vector.rs`): a `Vector` container of
IEEE-754 floating-point elements with SIMD-chunked element-wise
addition, subtraction, multiplication, division, negation and equality,
for the two precisions f32 (lane width 4) and f64 (lane width 2).

Rust panics (`unreachable!()`, slice index out of bounds, SIMD lane
assertions) are modelled by `Option`: `none` is a panic, `some` a normal
return.  Operations whose Rust type is `Result<Vector, String>` return
`Option (Except String Vector)`.
-/

namespace NumRs

/-- Model of an IEEE-754 floating-point value (f32 or f64).  Finite
values are carried as exact rationals: the claims under study concern
chunk/tail bookkeeping and special-value behaviour (signed zero,
infinities, NaN), and every concrete value appearing in them is exactly
representable, so rounding is omitted.  `num 0` is positive zero;
negative zero is the separate constructor `negZero`. -/
inductive Fl where
  | num : ℚ → Fl
  | negZero : Fl
  | inf : Fl
  | negInf : Fl
  | nan : Fl
deriving DecidableEq, Repr

/-- Positive zero, the padding value `0.0` used for unused tail lanes. -/
def fl0 : Fl := Fl.num 0

/-- IEEE negation: flips the sign bit, including on zero and infinity;
NaN stays NaN. -/
def fneg : Fl → Fl
  | .num q => if q = 0 then .negZero else .num (-q)
  | .negZero => .num 0
  | .inf => .negInf
  | .negInf => .inf
  | .nan => .nan

/-- IEEE addition (exact on finite operands; `x + (-x) = +0` as in
round-to-nearest). -/
def fadd : Fl → Fl → Fl
  | .nan, _ => .nan
  | _, .nan => .nan
  | .inf, .negInf => .nan
  | .negInf, .inf => .nan
  | .inf, _ => .inf
  | _, .inf => .inf
  | .negInf, _ => .negInf
  | _, .negInf => .negInf
  | .negZero, .negZero => .negZero
  | .negZero, .num b => .num b
  | .num a, .negZero => .num a
  | .num a, .num b => .num (a + b)

/-- IEEE subtraction: `x - y = x + (-y)` (exact identity in IEEE-754). -/
def fsub (a b : Fl) : Fl := fadd a (fneg b)

/-- IEEE multiplication (exact on finite operands), with the sign rules
for zeros and infinities; `inf * 0 = NaN`. -/
def fmul : Fl → Fl → Fl
  | .nan, _ => .nan
  | _, .nan => .nan
  | .inf, .inf => .inf
  | .inf, .negInf => .negInf
  | .negInf, .inf => .negInf
  | .negInf, .negInf => .inf
  | .inf, .negZero => .nan
  | .negZero, .inf => .nan
  | .negInf, .negZero => .nan
  | .negZero, .negInf => .nan
  | .inf, .num q => if q = 0 then .nan else if q < 0 then .negInf else .inf
  | .num q, .inf => if q = 0 then .nan else if q < 0 then .negInf else .inf
  | .negInf, .num q => if q = 0 then .nan else if q < 0 then .inf else .negInf
  | .num q, .negInf => if q = 0 then .nan else if q < 0 then .inf else .negInf
  | .negZero, .negZero => .num 0
  | .negZero, .num q => if q < 0 then .num 0 else .negZero
  | .num q, .negZero => if q < 0 then .num 0 else .negZero
  | .num a, .num b =>
      if a = 0 ∨ b = 0 then (if (a < 0) ≠ (b < 0) then .negZero else .num 0)
      else .num (a * b)

/-- IEEE division: a zero divisor with nonzero dividend gives a signed
infinity, `0 / 0 = NaN`, never a fault. -/
def fdiv : Fl → Fl → Fl
  | .nan, _ => .nan
  | _, .nan => .nan
  | .inf, .inf => .nan
  | .inf, .negInf => .nan
  | .negInf, .inf => .nan
  | .negInf, .negInf => .nan
  | .inf, .negZero => .negInf
  | .negInf, .negZero => .inf
  | .inf, .num q => if q < 0 then .negInf else .inf
  | .negInf, .num q => if q < 0 then .inf else .negInf
  | .negZero, .inf => .negZero
  | .negZero, .negInf => .num 0
  | .num q, .inf => if q < 0 then .negZero else .num 0
  | .num q, .negInf => if q < 0 then .num 0 else .negZero
  | .negZero, .negZero => .nan
  | .negZero, .num q => if q = 0 then .nan else if q < 0 then .num 0 else .negZero
  | .num a, .negZero => if a = 0 then .nan else if a < 0 then .inf else .negInf
  | .num a, .num b =>
      if b = 0 then (if a = 0 then .nan else if a < 0 then .negInf else .inf)
      else if a = 0 then (if b < 0 then .negZero else .num 0)
      else .num (a / b)

/-- IEEE equality comparison (`==`): NaN is unequal to everything
(itself included), `-0.0 == +0.0`. -/
def feq : Fl → Fl → Bool
  | .nan, _ => false
  | _, .nan => false
  | .num a, .num b => a = b
  | .negZero, .negZero => true
  | .negZero, .num b => b = 0
  | .num a, .negZero => a = 0
  | .inf, .inf => true
  | .negInf, .negInf => true
  | _, _ => false

/-- The `Vector<T>` container (`data: Vec<T>`), instantiated at the
float model `Fl`; it serves as the embedding of both `Vector<f32>` and
`Vector<f64>`, whose container code is identical. -/
structure Vector where
  data : List Fl
deriving DecidableEq, Repr

/-- `Vector::new` copies the input slice. -/
def Vector.new (elems : List Fl) : Vector := ⟨elems⟩

/-- `Vector::len`. -/
def Vector.len (v : Vector) : Nat := v.data.length

/-- `Index for Vector<T>`: `&self.data[index]`; `none` models the
index-out-of-bounds panic. -/
def Vector.index (v : Vector) (i : Nat) : Option Fl := v.data.get? i

/-- `Clone for Vector<T>`: a deep copy of the element list. -/
def Vector.clone (v : Vector) : Vector := ⟨v.data⟩

/-- Model of a `simd::f32x4` register: four lanes. -/
structure F32x4 where
  x0 : Fl
  x1 : Fl
  x2 : Fl
  x3 : Fl
deriving DecidableEq, Repr

/-- `f32x4::load(data, i)`: reads four consecutive elements starting at
`i`; `none` models the out-of-bounds panic. -/
def F32x4.load (dat : List Fl) (i : Nat) : Option F32x4 :=
  match dat.get? i, dat.get? (i+1), dat.get? (i+2), dat.get? (i+3) with
  | some a, some b, some c, some d => some ⟨a, b, c, d⟩
  | _, _, _, _ => none

/-- `f32x4::extract(j)`: lane read; `none` models the lane-index
assertion failure for `j ≥ 4`. -/
def F32x4.extract (r : F32x4) (j : Nat) : Option Fl :=
  [r.x0, r.x1, r.x2, r.x3].get? j

/-- Lane-wise application of a binary scalar operation, the semantics
of the hardware instructions `+`, `-`, `*`, `/` on `f32x4`. -/
def F32x4.map2 (f : Fl → Fl → Fl) (r s : F32x4) : F32x4 :=
  ⟨f r.x0 s.x0, f r.x1 s.x1, f r.x2 s.x2, f r.x3 s.x3⟩

/-- Lane-wise application of a unary scalar operation (vector negate). -/
def F32x4.map1 (f : Fl → Fl) (r : F32x4) : F32x4 :=
  ⟨f r.x0, f r.x1, f r.x2, f r.x3⟩

/-- `reg1.eq(reg2).all()`: lane-wise IEEE comparison, conjunction over
the four lanes. -/
def F32x4.eqAll (r s : F32x4) : Bool :=
  feq r.x0 s.x0 && feq r.x1 s.x1 && feq r.x2 s.x2 && feq r.x3 s.x3

/-- The inner tail loop of the f32 binary operators
(`for j in i..len { let diff = len - j; match diff { ... } }`), filling
the scratch variables `(x1,x2,x3)` and `(y1,y2,y3)` from both operands.
`none` models the `unreachable!()` panic (`diff ∉ {1,2,3}`) and the
slice-index panic. -/
def tailBin (lhsData rhsData : List Fl) (len j : Nat)
    (x y : Fl × Fl × Fl) : Option ((Fl × Fl × Fl) × (Fl × Fl × Fl)) :=
  if _h : j < len then
    match lhsData.get? j, rhsData.get? j with
    | some a, some b =>
      match len - j with
      | 1 => tailBin lhsData rhsData len (j+1) (a, x.2.1, x.2.2) (b, y.2.1, y.2.2)
      | 2 => tailBin lhsData rhsData len (j+1) (x.1, a, x.2.2) (y.1, b, y.2.2)
      | 3 => tailBin lhsData rhsData len (j+1) (x.1, x.2.1, a) (y.1, y.2.1, b)
      | _ => none
    | _, _ => none
  else some (x, y)
termination_by len - j
decreasing_by all_goals omega

/-- The single-operand tail loop of f32 negation. -/
def tailNeg (dat : List Fl) (len j : Nat) (x : Fl × Fl × Fl) :
    Option (Fl × Fl × Fl) :=
  if _h : j < len then
    match dat.get? j with
    | some a =>
      match len - j with
      | 1 => tailNeg dat len (j+1) (a, x.2.1, x.2.2)
      | 2 => tailNeg dat len (j+1) (x.1, a, x.2.2)
      | 3 => tailNeg dat len (j+1) (x.1, x.2.1, a)
      | _ => none
    | none => none
  else some x
termination_by len - j
decreasing_by all_goals omega

/-- Register set-up shared by every f32 two-operand chunk iteration:
for a tail chunk (`len - i < 4`) run the tail loop and build padded
registers `f32x4::new(x1, x2, x3, 0.0)`, with `reg_len = len - i`;
for a full chunk, `f32x4::load` both operands with `reg_len = 4`. -/
def regsBinF32 (lhsData rhsData : List Fl) (len i : Nat) :
    Option (Nat × F32x4 × F32x4) :=
  if len - i < 4 then
    match tailBin lhsData rhsData len i (fl0, fl0, fl0) (fl0, fl0, fl0) with
    | some ((a1, a2, a3), (b1, b2, b3)) =>
        some (len - i, ⟨a1, a2, a3, fl0⟩, ⟨b1, b2, b3, fl0⟩)
    | none => none
  else
    match F32x4.load lhsData i, F32x4.load rhsData i with
    | some r1, some r2 => some (4, r1, r2)
    | _, _ => none

/-- The f32 chunking loop `for i in (0..len).step_by(4)` of the binary
operators, parameterized by the lane-wise scalar operation `f`; each
iteration appends the first `reg_len` lanes of the result register. -/
def binChunkF32 (f : Fl → Fl → Fl) (lhsData rhsData : List Fl)
    (len i : Nat) (acc : List Fl) : Option (List Fl) :=
  if _h : i < len then
    match regsBinF32 lhsData rhsData len i with
    | none => none
    | some (regLen, reg1, reg2) =>
      let res := F32x4.map2 f reg1 reg2
      match (List.range regLen).mapM res.extract with
      | none => none
      | some chunk => binChunkF32 f lhsData rhsData len (i + 4) (acc ++ chunk)
  else some acc
termination_by len - i
decreasing_by all_goals omega

/-- The f32 chunking loop of negation. -/
def negChunkF32 (dat : List Fl) (len i : Nat) (acc : List Fl) :
    Option (List Fl) :=
  if _h : i < len then
    match (if len - i < 4 then
             match tailNeg dat len i (fl0, fl0, fl0) with
             | some (a1, a2, a3) => some (len - i, (⟨a1, a2, a3, fl0⟩ : F32x4))
             | none => none
           else
             match F32x4.load dat i with
             | some r => some (4, r)
             | none => none) with
    | none => none
    | some (regLen, reg) =>
      let res := F32x4.map1 fneg reg
      match (List.range regLen).mapM res.extract with
      | none => none
      | some chunk => negChunkF32 dat len (i + 4) (acc ++ chunk)
  else some acc
termination_by len - i
decreasing_by all_goals omega

/-- The f32 chunking loop of `PartialEq::eq`: per chunk, compare lanes
and return `false` as soon as some lane differs. -/
def eqChunkF32 (lhsData rhsData : List Fl) (len i : Nat) : Option Bool :=
  if _h : i < len then
    match regsBinF32 lhsData rhsData len i with
    | none => none
    | some (_, reg1, reg2) =>
      if !(F32x4.eqAll reg1 reg2) then some false
      else eqChunkF32 lhsData rhsData len (i + 4)
  else some true
termination_by len - i
decreasing_by all_goals omega

/-- `Add for Vector<f32>`. -/
def addF32 (lhs rhs : Vector) : Option (Except String Vector) :=
  if lhs.data.length = rhs.data.length then
    match binChunkF32 fadd lhs.data rhs.data lhs.data.length 0 [] with
    | some out => some (Except.ok ⟨out⟩)
    | none => none
  else
    some (Except.error "Vectors are not conformable for addition.")

/-- `Sub for Vector<f32>`. -/
def subF32 (lhs rhs : Vector) : Option (Except String Vector) :=
  if lhs.data.length = rhs.data.length then
    match binChunkF32 fsub lhs.data rhs.data lhs.data.length 0 [] with
    | some out => some (Except.ok ⟨out⟩)
    | none => none
  else
    some (Except.error "Vectors are not conformable for subtraction.")

/-- `Mul for Vector<f32>`. -/
def mulF32 (lhs rhs : Vector) : Option (Except String Vector) :=
  if lhs.data.length = rhs.data.length then
    match binChunkF32 fmul lhs.data rhs.data lhs.data.length 0 [] with
    | some out => some (Except.ok ⟨out⟩)
    | none => none
  else
    some (Except.error "Vectors are not conformable for multiplication.")

/-- `Div for Vector<f32>`. -/
def divF32 (lhs rhs : Vector) : Option (Except String Vector) :=
  if lhs.data.length = rhs.data.length then
    match binChunkF32 fdiv lhs.data rhs.data lhs.data.length 0 [] with
    | some out => some (Except.ok ⟨out⟩)
    | none => none
  else
    some (Except.error "Vectors are not conformable for division.")

/-- `Neg for Vector<f32>` (no failure mode besides panics). -/
def negF32 (v : Vector) : Option Vector :=
  match negChunkF32 v.data v.data.length 0 [] with
  | some out => some ⟨out⟩
  | none => none

/-- `PartialEq for Vector<f32>`: unequal lengths give `false`
immediately. -/
def eqF32 (lhs rhs : Vector) : Option Bool :=
  if lhs.data.length = rhs.data.length then
    eqChunkF32 lhs.data rhs.data lhs.data.length 0
  else some false

/-- Model of a `simd::x86::sse2::f64x2` register: two lanes. -/
structure F64x2 where
  x0 : Fl
  x1 : Fl
deriving DecidableEq, Repr

/-- `f64x2::load(data, i)`. -/
def F64x2.load (dat : List Fl) (i : Nat) : Option F64x2 :=
  match dat.get? i, dat.get? (i+1) with
  | some a, some b => some ⟨a, b⟩
  | _, _ => none

/-- `f64x2::extract(j)`. -/
def F64x2.extract (r : F64x2) (j : Nat) : Option Fl :=
  [r.x0, r.x1].get? j

/-- Lane-wise binary operation on `f64x2`. -/
def F64x2.map2 (f : Fl → Fl → Fl) (r s : F64x2) : F64x2 :=
  ⟨f r.x0 s.x0, f r.x1 s.x1⟩

/-- Lane-wise unary operation on `f64x2`. -/
def F64x2.map1 (f : Fl → Fl) (r : F64x2) : F64x2 :=
  ⟨f r.x0, f r.x1⟩

/-- `reg1.eq(reg2).all()` for `f64x2`. -/
def F64x2.eqAll (r s : F64x2) : Bool :=
  feq r.x0 s.x0 && feq r.x1 s.x1

/-- Register set-up of the f64 two-operand chunk iterations: a tail
chunk (`len - i < 2`, so a single element) builds
`f64x2::new(data[i], 0.0)` with `reg_len = 1`; a full chunk loads both
operands with `reg_len = 2`. -/
def regsBinF64 (lhsData rhsData : List Fl) (len i : Nat) :
    Option (Nat × F64x2 × F64x2) :=
  if len - i < 2 then
    match lhsData.get? i, rhsData.get? i with
    | some a, some b => some (1, ⟨a, fl0⟩, ⟨b, fl0⟩)
    | _, _ => none
  else
    match F64x2.load lhsData i, F64x2.load rhsData i with
    | some r1, some r2 => some (2, r1, r2)
    | _, _ => none

/-- The f64 chunking loop `for i in (0..len).step_by(2)` of the binary
operators. -/
def binChunkF64 (f : Fl → Fl → Fl) (lhsData rhsData : List Fl)
    (len i : Nat) (acc : List Fl) : Option (List Fl) :=
  if _h : i < len then
    match regsBinF64 lhsData rhsData len i with
    | none => none
    | some (regLen, reg1, reg2) =>
      let res := F64x2.map2 f reg1 reg2
      match (List.range regLen).mapM res.extract with
      | none => none
      | some chunk => binChunkF64 f lhsData rhsData len (i + 2) (acc ++ chunk)
  else some acc
termination_by len - i
decreasing_by all_goals omega

/-- The f64 chunking loop of negation. -/
def negChunkF64 (dat : List Fl) (len i : Nat) (acc : List Fl) :
    Option (List Fl) :=
  if _h : i < len then
    match (if len - i < 2 then
             match dat.get? i with
             | some a => some (1, (⟨a, fl0⟩ : F64x2))
             | none => none
           else
             match F64x2.load dat i with
             | some r => some (2, r)
             | none => none) with
    | none => none
    | some (regLen, reg) =>
      let res := F64x2.map1 fneg reg
      match (List.range regLen).mapM res.extract with
      | none => none
      | some chunk => negChunkF64 dat len (i + 2) (acc ++ chunk)
  else some acc
termination_by len - i
decreasing_by all_goals omega

/-- The f64 chunking loop of `PartialEq::eq`. -/
def eqChunkF64 (lhsData rhsData : List Fl) (len i : Nat) : Option Bool :=
  if _h : i < len then
    match regsBinF64 lhsData rhsData len i with
    | none => none
    | some (_, reg1, reg2) =>
      if !(F64x2.eqAll reg1 reg2) then some false
      else eqChunkF64 lhsData rhsData len (i + 2)
  else some true
termination_by len - i
decreasing_by all_goals omega

/-- `Add for Vector<f64>`. -/
def addF64 (lhs rhs : Vector) : Option (Except String Vector) :=
  if lhs.data.length = rhs.data.length then
    match binChunkF64 fadd lhs.data rhs.data lhs.data.length 0 [] with
    | some out => some (Except.ok ⟨out⟩)
    | none => none
  else
    some (Except.error "Vectors are not conformable for addition.")

/-- `Sub for Vector<f64>`. -/
def subF64 (lhs rhs : Vector) : Option (Except String Vector) :=
  if lhs.data.length = rhs.data.length then
    match binChunkF64 fsub lhs.data rhs.data lhs.data.length 0 [] with
    | some out => some (Except.ok ⟨out⟩)
    | none => none
  else
    some (Except.error "Vectors are not conformable for subtraction.")

/-- `Mul for Vector<f64>`. -/
def mulF64 (lhs rhs : Vector) : Option (Except String Vector) :=
  if lhs.data.length = rhs.data.length then
    match binChunkF64 fmul lhs.data rhs.data lhs.data.length 0 [] with
    | some out => some (Except.ok ⟨out⟩)
    | none => none
  else
    some (Except.error "Vectors are not conformable for multiplication.")

/-- `Div for Vector<f64>`. -/
def divF64 (lhs rhs : Vector) : Option (Except String Vector) :=
  if lhs.data.length = rhs.data.length then
    match binChunkF64 fdiv lhs.data rhs.data lhs.data.length 0 [] with
    | some out => some (Except.ok ⟨out⟩)
    | none => none
  else
    some (Except.error "Vectors are not conformable for division.")

/-- `Neg for Vector<f64>`. -/
def negF64 (v : Vector) : Option Vector :=
  match negChunkF64 v.data v.data.length 0 [] with
  | some out => some ⟨out⟩
  | none => none

/-- `PartialEq for Vector<f64>`. -/
def eqF64 (lhs rhs : Vector) : Option Bool :=
  if lhs.data.length = rhs.data.length then
    eqChunkF64 lhs.data rhs.data lhs.data.length 0
  else some false

/-!
### Closed-form description of what the f32 chunking loop computes

The f32 tail loop stores the element whose distance to the end is `d`
into scratch slot `d`, i.e. into lane `d - 1`, so within a final
partial chunk the elements come out in reversed order.  `permIdx4 len p`
is the input index whose value the loop writes to output position `p`:
the identity inside full chunks, the within-chunk reversal on a final
partial chunk. -/
def permIdx4 (len p : Nat) : Nat :=
  if len - p / 4 * 4 < 4 then len - 1 - (p - p / 4 * 4) else p

/-- What `binChunkF32` actually computes from position `0`. -/
def modelBinF32 (f : Fl → Fl → Fl) (l r : List Fl) : List Fl :=
  (List.range l.length).map
    (fun p => f (l.getD (permIdx4 l.length p) fl0) (r.getD (permIdx4 l.length p) fl0))

/-- What `negChunkF32` actually computes from position `0`. -/
def modelNegF32 (l : List Fl) : List Fl :=
  (List.range l.length).map (fun p => fneg (l.getD (permIdx4 l.length p) fl0))

/-- What `binChunkF64` computes: the plain element-wise map. -/
def modelBinF64 (f : Fl → Fl → Fl) (l r : List Fl) : List Fl :=
  (List.range l.length).map (fun p => f (l.getD p fl0) (r.getD p fl0))

/-- What `negChunkF64` computes: the element-wise negation. -/
def modelNegF64 (l : List Fl) : List Fl :=
  (List.range l.length).map (fun p => fneg (l.getD p fl0))

theorem get?_of_lt {l : List Fl} {p : Nat} (h : p < l.length) :
    l.get? p = some (l.getD p fl0) := by
  rw [List.get?_eq_getElem?, List.getElem?_eq_getElem h, List.getD_eq_getElem l fl0 h]

theorem permIdx4_lt {len p : Nat} (h : p < len) : permIdx4 len p < len := by
  unfold permIdx4
  split <;> omega

theorem permIdx4_tail {len i p : Nat} (hi : i % 4 = 0) (hp : i ≤ p)
    (hplen : p < len) (ht : len - i < 4) :
    permIdx4 len p = len - 1 - (p - i) := by
  unfold permIdx4
  have hb : p / 4 * 4 = i := by omega
  rw [hb]
  have : len - i < 4 := ht
  simp [this]

theorem permIdx4_full {len i p : Nat} (hi : i % 4 = 0) (hp : i ≤ p)
    (hp4 : p < i + 4) (h4 : 4 ≤ len - i) : permIdx4 len p = p := by
  unfold permIdx4
  have hb : p / 4 * 4 = i := by omega
  rw [hb]
  have : ¬ (len - i < 4) := by omega
  simp [this]

theorem permIdx4_invol {len p : Nat} (h : p < len) :
    permIdx4 len (permIdx4 len p) = p := by
  unfold permIdx4
  split
  · rename_i h1
    have hq : (len - 1 - (p - p / 4 * 4)) / 4 * 4 = p / 4 * 4 := by omega
    rw [hq]
    simp [h1]
    omega
  · rename_i h1
    simp [h1]

theorem tailBin_stop {l r : List Fl} {len j : Nat} {x y : Fl × Fl × Fl}
    (h : ¬ j < len) : tailBin l r len j x y = some (x, y) := by
  rw [tailBin]
  simp [h]

theorem tailBin_len1 {l r : List Fl} {i : Nat} (x y : Fl × Fl × Fl)
    (hl : i < l.length) (hr : i < r.length) :
    tailBin l r (i+1) i x y =
      some ((l.getD i fl0, x.2.1, x.2.2), (r.getD i fl0, y.2.1, y.2.2)) := by
  rw [tailBin]
  have h1 : i + 1 - i = 1 := by omega
  simp only [get?_of_lt hl, get?_of_lt hr, h1]
  rw [dif_pos (by omega)]
  exact tailBin_stop (by omega)

theorem tailBin_len2 {l r : List Fl} {i : Nat} (x y : Fl × Fl × Fl)
    (hl : i + 1 < l.length) (hr : i + 1 < r.length) :
    tailBin l r (i+2) i x y =
      some ((l.getD (i+1) fl0, l.getD i fl0, x.2.2),
            (r.getD (i+1) fl0, r.getD i fl0, y.2.2)) := by
  rw [tailBin]
  have h2 : i + 2 - i = 2 := by omega
  simp only [get?_of_lt (show i < l.length by omega),
    get?_of_lt (show i < r.length by omega), h2]
  rw [dif_pos (by omega)]
  exact tailBin_len1 (x.1, l.getD i fl0, x.2.2) (y.1, r.getD i fl0, y.2.2) hl hr

theorem tailBin_len3 {l r : List Fl} {i : Nat} (x y : Fl × Fl × Fl)
    (hl : i + 2 < l.length) (hr : i + 2 < r.length) :
    tailBin l r (i+3) i x y =
      some ((l.getD (i+2) fl0, l.getD (i+1) fl0, l.getD i fl0),
            (r.getD (i+2) fl0, r.getD (i+1) fl0, r.getD i fl0)) := by
  rw [tailBin]
  have h3 : i + 3 - i = 3 := by omega
  simp only [get?_of_lt (show i < l.length by omega),
    get?_of_lt (show i < r.length by omega), h3]
  rw [dif_pos (by omega)]
  exact tailBin_len2 (x.1, x.2.1, l.getD i fl0) (y.1, y.2.1, r.getD i fl0) hl hr

theorem tailNeg_stop {l : List Fl} {len j : Nat} {x : Fl × Fl × Fl}
    (h : ¬ j < len) : tailNeg l len j x = some x := by
  rw [tailNeg]
  simp [h]

theorem tailNeg_len1 {l : List Fl} {i : Nat} (x : Fl × Fl × Fl)
    (hl : i < l.length) :
    tailNeg l (i+1) i x = some (l.getD i fl0, x.2.1, x.2.2) := by
  rw [tailNeg]
  have h1 : i + 1 - i = 1 := by omega
  simp only [get?_of_lt hl, h1]
  rw [dif_pos (by omega)]
  exact tailNeg_stop (by omega)

theorem tailNeg_len2 {l : List Fl} {i : Nat} (x : Fl × Fl × Fl)
    (hl : i + 1 < l.length) :
    tailNeg l (i+2) i x = some (l.getD (i+1) fl0, l.getD i fl0, x.2.2) := by
  rw [tailNeg]
  have h2 : i + 2 - i = 2 := by omega
  simp only [get?_of_lt (show i < l.length by omega), h2]
  rw [dif_pos (by omega)]
  exact tailNeg_len1 (x.1, l.getD i fl0, x.2.2) hl

theorem tailNeg_len3 {l : List Fl} {i : Nat} (x : Fl × Fl × Fl)
    (hl : i + 2 < l.length) :
    tailNeg l (i+3) i x =
      some (l.getD (i+2) fl0, l.getD (i+1) fl0, l.getD i fl0) := by
  rw [tailNeg]
  have h3 : i + 3 - i = 3 := by omega
  simp only [get?_of_lt (show i < l.length by omega), h3]
  rw [dif_pos (by omega)]
  exact tailNeg_len2 (x.1, x.2.1, l.getD i fl0) hl

theorem mapM_extract1 (res : F32x4) :
    (List.range 1).mapM res.extract = some [res.x0] := rfl

theorem mapM_extract2 (res : F32x4) :
    (List.range 2).mapM res.extract = some [res.x0, res.x1] := rfl

theorem mapM_extract3 (res : F32x4) :
    (List.range 3).mapM res.extract = some [res.x0, res.x1, res.x2] := rfl

theorem mapM_extract4 (res : F32x4) :
    (List.range 4).mapM res.extract = some [res.x0, res.x1, res.x2, res.x3] := rfl

theorem regsBinF32_len1 {l r : List Fl} {i : Nat}
    (hl : l.length = i + 1) (hr : r.length = i + 1) :
    regsBinF32 l r (i+1) i =
      some (1, ⟨l.getD i fl0, fl0, fl0, fl0⟩, ⟨r.getD i fl0, fl0, fl0, fl0⟩) := by
  unfold regsBinF32
  rw [if_pos (show i + 1 - i < 4 by omega)]
  rw [tailBin_len1 (fl0, fl0, fl0) (fl0, fl0, fl0) (by omega) (by omega)]
  have h1 : i + 1 - i = 1 := by omega
  rw [h1]

theorem regsBinF32_len2 {l r : List Fl} {i : Nat}
    (hl : l.length = i + 2) (hr : r.length = i + 2) :
    regsBinF32 l r (i+2) i =
      some (2, ⟨l.getD (i+1) fl0, l.getD i fl0, fl0, fl0⟩,
               ⟨r.getD (i+1) fl0, r.getD i fl0, fl0, fl0⟩) := by
  unfold regsBinF32
  rw [if_pos (show i + 2 - i < 4 by omega)]
  rw [tailBin_len2 (fl0, fl0, fl0) (fl0, fl0, fl0) (by omega) (by omega)]
  have h2 : i + 2 - i = 2 := by omega
  rw [h2]

theorem regsBinF32_len3 {l r : List Fl} {i : Nat}
    (hl : l.length = i + 3) (hr : r.length = i + 3) :
    regsBinF32 l r (i+3) i =
      some (3, ⟨l.getD (i+2) fl0, l.getD (i+1) fl0, l.getD i fl0, fl0⟩,
               ⟨r.getD (i+2) fl0, r.getD (i+1) fl0, r.getD i fl0, fl0⟩) := by
  unfold regsBinF32
  rw [if_pos (show i + 3 - i < 4 by omega)]
  rw [tailBin_len3 (fl0, fl0, fl0) (fl0, fl0, fl0) (by omega) (by omega)]
  have h3 : i + 3 - i = 3 := by omega
  rw [h3]

theorem load_F32x4 {l : List Fl} {i : Nat} (h : i + 3 < l.length) :
    F32x4.load l i =
      some ⟨l.getD i fl0, l.getD (i+1) fl0, l.getD (i+2) fl0, l.getD (i+3) fl0⟩ := by
  unfold F32x4.load
  rw [get?_of_lt (show i < l.length by omega),
    get?_of_lt (show i + 1 < l.length by omega),
    get?_of_lt (show i + 2 < l.length by omega),
    get?_of_lt h]

theorem regsBinF32_full {l r : List Fl} {len i : Nat}
    (hl : l.length = len) (hr : r.length = len) (h4 : 4 ≤ len - i) :
    regsBinF32 l r len i =
      some (4, ⟨l.getD i fl0, l.getD (i+1) fl0, l.getD (i+2) fl0, l.getD (i+3) fl0⟩,
               ⟨r.getD i fl0, r.getD (i+1) fl0, r.getD (i+2) fl0, r.getD (i+3) fl0⟩) := by
  unfold regsBinF32
  rw [if_neg (show ¬ (len - i < 4) by omega)]
  rw [load_F32x4 (show i + 3 < l.length by omega),
    load_F32x4 (show i + 3 < r.length by omega)]

theorem range'_one (s : Nat) : List.range' s 1 = [s] := rfl

theorem range'_two (s : Nat) : List.range' s 2 = [s, s+1] := rfl

theorem range'_three (s : Nat) : List.range' s 3 = [s, s+1, s+2] := rfl

theorem range'_four (s : Nat) : List.range' s 4 = [s, s+1, s+2, s+3] := rfl

/-- Closed form of the f32 binary chunking loop: started at any
4-aligned offset `i` on equal-length operands, it terminates normally
and appends, for each position `p` from `i` up, the value
`f lhs[permIdx4 len p] rhs[permIdx4 len p]` — element-wise inside full
chunks, tail-reversed inside a final partial chunk. -/
theorem binChunkF32_spec (f : Fl → Fl → Fl) (l r : List Fl) (len i : Nat)
    (acc : List Fl) (hl : l.length = len) (hr : r.length = len)
    (hi : i % 4 = 0) :
    binChunkF32 f l r len i acc =
      some (acc ++ (List.range' i (len - i)).map
        (fun p => f (l.getD (permIdx4 len p) fl0) (r.getD (permIdx4 len p) fl0))) := by
  rw [binChunkF32]
  by_cases h : i < len
  · rw [dif_pos h]
    by_cases ht : len - i < 4
    · have htv : len - i = 1 ∨ len - i = 2 ∨ len - i = 3 := by omega
      rcases htv with h1 | h2 | h3
      · obtain rfl : len = i + 1 := by omega
        rw [regsBinF32_len1 hl hr]
        simp only [F32x4.map2, mapM_extract1]
        rw [binChunkF32_spec f l r (i+1) (i+4) _ hl hr (by omega)]
        have hz : i + 1 - (i + 4) = 0 := by omega
        have hs : i + 1 - i = 1 := by omega
        rw [hz, hs, range'_one]
        simp only [List.map_cons, List.map_nil]
        rw [permIdx4_tail hi (Nat.le_refl i) (by omega) (by omega)]
        have : i + 1 - 1 - (i - i) = i := by omega
        rw [this]
        simp
      · obtain rfl : len = i + 2 := by omega
        rw [regsBinF32_len2 hl hr]
        simp only [F32x4.map2, mapM_extract2]
        rw [binChunkF32_spec f l r (i+2) (i+4) _ hl hr (by omega)]
        have hz : i + 2 - (i + 4) = 0 := by omega
        have hs : i + 2 - i = 2 := by omega
        rw [hz, hs, range'_two]
        simp only [List.map_cons, List.map_nil]
        rw [permIdx4_tail hi (Nat.le_refl i) (by omega) (by omega),
          permIdx4_tail hi (by omega) (by omega) (by omega)]
        have e1 : i + 2 - 1 - (i - i) = i + 1 := by omega
        have e2 : i + 2 - 1 - (i + 1 - i) = i := by omega
        rw [e1, e2]
        simp
      · obtain rfl : len = i + 3 := by omega
        rw [regsBinF32_len3 hl hr]
        simp only [F32x4.map2, mapM_extract3]
        rw [binChunkF32_spec f l r (i+3) (i+4) _ hl hr (by omega)]
        have hz : i + 3 - (i + 4) = 0 := by omega
        have hs : i + 3 - i = 3 := by omega
        rw [hz, hs, range'_three]
        simp only [List.map_cons, List.map_nil]
        rw [permIdx4_tail hi (Nat.le_refl i) (by omega) (by omega),
          permIdx4_tail hi (show i ≤ i + 1 by omega) (by omega) (by omega),
          permIdx4_tail hi (show i ≤ i + 2 by omega) (by omega) (by omega)]
        have e1 : i + 3 - 1 - (i - i) = i + 2 := by omega
        have e2 : i + 3 - 1 - (i + 1 - i) = i + 1 := by omega
        have e3 : i + 3 - 1 - (i + 2 - i) = i := by omega
        rw [e1, e2, e3]
        simp
    · rw [regsBinF32_full hl hr (by omega)]
      simp only [F32x4.map2, mapM_extract4]
      rw [binChunkF32_spec f l r len (i+4) _ hl hr (by omega)]
      have hsplit : List.range' i (len - i) =
          List.range' i 4 ++ List.range' (i + 4) (len - (i + 4)) := by
        have h4 : len - i = (len - (i + 4)) + 4 := by omega
        rw [h4]
        have h5 := List.range'_append i 4 (len - (i + 4)) 1
        rw [Nat.one_mul] at h5
        exact h5.symm
      rw [hsplit, List.map_append, range'_four]
      simp only [List.map_cons, List.map_nil]
      rw [permIdx4_full hi (Nat.le_refl i) (by omega) (by omega),
        permIdx4_full hi (show i ≤ i + 1 by omega) (by omega) (by omega),
        permIdx4_full hi (show i ≤ i + 2 by omega) (by omega) (by omega),
        permIdx4_full hi (show i ≤ i + 3 by omega) (by omega) (by omega)]
      simp
  · rw [dif_neg h]
    have hz : len - i = 0 := by omega
    rw [hz]
    simp
termination_by len - i
decreasing_by all_goals omega

/-- Closed form of the f32 negation chunking loop: same chunk/tail
traversal as the binary loop, with `fneg` applied lane-wise. -/
theorem negChunkF32_spec (l : List Fl) (len i : Nat) (acc : List Fl)
    (hl : l.length = len) (hi : i % 4 = 0) :
    negChunkF32 l len i acc =
      some (acc ++ (List.range' i (len - i)).map
        (fun p => fneg (l.getD (permIdx4 len p) fl0))) := by
  rw [negChunkF32]
  by_cases h : i < len
  · rw [dif_pos h]
    by_cases ht : len - i < 4
    · have htv : len - i = 1 ∨ len - i = 2 ∨ len - i = 3 := by omega
      rcases htv with h1 | h2 | h3
      · obtain rfl : len = i + 1 := by omega
        rw [if_pos (show i + 1 - i < 4 by omega)]
        rw [tailNeg_len1 (fl0, fl0, fl0) (by omega)]
        have hs : i + 1 - i = 1 := by omega
        rw [hs]
        simp only [F32x4.map1, mapM_extract1]
        rw [negChunkF32_spec l (i+1) (i+4) _ hl (by omega)]
        have hz : i + 1 - (i + 4) = 0 := by omega
        rw [hz, range'_one]
        simp only [List.map_cons, List.map_nil]
        rw [permIdx4_tail hi (Nat.le_refl i) (by omega) (by omega)]
        have e1 : i + 1 - 1 - (i - i) = i := by omega
        rw [e1]
        simp
      · obtain rfl : len = i + 2 := by omega
        rw [if_pos (show i + 2 - i < 4 by omega)]
        rw [tailNeg_len2 (fl0, fl0, fl0) (by omega)]
        have hs : i + 2 - i = 2 := by omega
        rw [hs]
        simp only [F32x4.map1, mapM_extract2]
        rw [negChunkF32_spec l (i+2) (i+4) _ hl (by omega)]
        have hz : i + 2 - (i + 4) = 0 := by omega
        rw [hz, range'_two]
        simp only [List.map_cons, List.map_nil]
        rw [permIdx4_tail hi (Nat.le_refl i) (by omega) (by omega),
          permIdx4_tail hi (show i ≤ i + 1 by omega) (by omega) (by omega)]
        have e1 : i + 2 - 1 - (i - i) = i + 1 := by omega
        have e2 : i + 2 - 1 - (i + 1 - i) = i := by omega
        rw [e1, e2]
        simp
      · obtain rfl : len = i + 3 := by omega
        rw [if_pos (show i + 3 - i < 4 by omega)]
        rw [tailNeg_len3 (fl0, fl0, fl0) (by omega)]
        have hs : i + 3 - i = 3 := by omega
        rw [hs]
        simp only [F32x4.map1, mapM_extract3]
        rw [negChunkF32_spec l (i+3) (i+4) _ hl (by omega)]
        have hz : i + 3 - (i + 4) = 0 := by omega
        rw [hz, range'_three]
        simp only [List.map_cons, List.map_nil]
        rw [permIdx4_tail hi (Nat.le_refl i) (by omega) (by omega),
          permIdx4_tail hi (show i ≤ i + 1 by omega) (by omega) (by omega),
          permIdx4_tail hi (show i ≤ i + 2 by omega) (by omega) (by omega)]
        have e1 : i + 3 - 1 - (i - i) = i + 2 := by omega
        have e2 : i + 3 - 1 - (i + 1 - i) = i + 1 := by omega
        have e3 : i + 3 - 1 - (i + 2 - i) = i := by omega
        rw [e1, e2, e3]
        simp
    · rw [if_neg ht]
      rw [load_F32x4 (show i + 3 < l.length by omega)]
      simp only [F32x4.map1, mapM_extract4]
      rw [negChunkF32_spec l len (i+4) _ hl (by omega)]
      have hsplit : List.range' i (len - i) =
          List.range' i 4 ++ List.range' (i + 4) (len - (i + 4)) := by
        have h4 : len - i = (len - (i + 4)) + 4 := by omega
        rw [h4]
        have h5 := List.range'_append i 4 (len - (i + 4)) 1
        rw [Nat.one_mul] at h5
        exact h5.symm
      rw [hsplit, List.map_append, range'_four]
      simp only [List.map_cons, List.map_nil]
      rw [permIdx4_full hi (Nat.le_refl i) (by omega) (by omega),
        permIdx4_full hi (show i ≤ i + 1 by omega) (by omega) (by omega),
        permIdx4_full hi (show i ≤ i + 2 by omega) (by omega) (by omega),
        permIdx4_full hi (show i ≤ i + 3 by omega) (by omega) (by omega)]
      simp
  · rw [dif_neg h]
    have hz : len - i = 0 := by omega
    rw [hz]
    simp
termination_by len - i
decreasing_by all_goals omega

theorem feq_fl0 : feq fl0 fl0 = true := by decide

theorem if_bang_bool (c d : Bool) :
    (if !c then some false else some d) = some (c && d) := by
  cases c <;> simp

/-- Closed form of the f32 equality chunking loop: the conjunction of
lane-wise IEEE equality over all remaining positions.  The tail
reversal is invisible here (a conjunction is order-independent) and the
padding lanes compare `0.0 == 0.0`, which is always true. -/
theorem eqChunkF32_spec (l r : List Fl) (len i : Nat)
    (hl : l.length = len) (hr : r.length = len) (hi : i % 4 = 0) :
    eqChunkF32 l r len i =
      some ((List.range' i (len - i)).all
        (fun p => feq (l.getD p fl0) (r.getD p fl0))) := by
  rw [eqChunkF32]
  by_cases h : i < len
  · rw [dif_pos h]
    by_cases ht : len - i < 4
    · have htv : len - i = 1 ∨ len - i = 2 ∨ len - i = 3 := by omega
      rcases htv with h1 | h2 | h3
      · obtain rfl : len = i + 1 := by omega
        rw [regsBinF32_len1 hl hr]
        rw [eqChunkF32_spec l r (i+1) (i+4) hl hr (by omega)]
        have hz : i + 1 - (i + 4) = 0 := by omega
        have hs : i + 1 - i = 1 := by omega
        rw [hz, hs, range'_one]
        simp [if_bang_bool, F32x4.eqAll, feq_fl0]
        cases hb0 : feq (l[i]?.getD fl0) (r[i]?.getD fl0) <;> simp [hb0]
      · obtain rfl : len = i + 2 := by omega
        rw [regsBinF32_len2 hl hr]
        rw [eqChunkF32_spec l r (i+2) (i+4) hl hr (by omega)]
        have hz : i + 2 - (i + 4) = 0 := by omega
        have hs : i + 2 - i = 2 := by omega
        rw [hz, hs, range'_two]
        simp [if_bang_bool, F32x4.eqAll, feq_fl0, Bool.and_comm]
        cases hb0 : feq (l[i]?.getD fl0) (r[i]?.getD fl0) <;>
          cases hb1 : feq (l[i+1]?.getD fl0) (r[i+1]?.getD fl0) <;>
            simp [hb0, hb1]
      · obtain rfl : len = i + 3 := by omega
        rw [regsBinF32_len3 hl hr]
        rw [eqChunkF32_spec l r (i+3) (i+4) hl hr (by omega)]
        have hz : i + 3 - (i + 4) = 0 := by omega
        have hs : i + 3 - i = 3 := by omega
        rw [hz, hs, range'_three]
        simp [if_bang_bool, F32x4.eqAll, feq_fl0, Bool.and_comm, Bool.and_assoc, Bool.and_left_comm]
        cases hb0 : feq (l[i]?.getD fl0) (r[i]?.getD fl0) <;>
          cases hb1 : feq (l[i+1]?.getD fl0) (r[i+1]?.getD fl0) <;>
            cases hb2 : feq (l[i+2]?.getD fl0) (r[i+2]?.getD fl0) <;>
              simp [hb0, hb1, hb2]
    · rw [regsBinF32_full hl hr (by omega)]
      rw [eqChunkF32_spec l r len (i+4) hl hr (by omega)]
      have hsplit : List.range' i (len - i) =
          List.range' i 4 ++ List.range' (i + 4) (len - (i + 4)) := by
        have h4 : len - i = (len - (i + 4)) + 4 := by omega
        rw [h4]
        have h5 := List.range'_append i 4 (len - (i + 4)) 1
        rw [Nat.one_mul] at h5
        exact h5.symm
      rw [hsplit, range'_four]
      simp [if_bang_bool, F32x4.eqAll, Bool.and_assoc]
      cases hb0 : feq (l[i]?.getD fl0) (r[i]?.getD fl0) <;>
        cases hb1 : feq (l[i+1]?.getD fl0) (r[i+1]?.getD fl0) <;>
          cases hb2 : feq (l[i+2]?.getD fl0) (r[i+2]?.getD fl0) <;>
            cases hb3 : feq (l[i+3]?.getD fl0) (r[i+3]?.getD fl0) <;>
              simp [hb0, hb1, hb2, hb3]
  · rw [dif_neg h]
    have hz : len - i = 0 := by omega
    rw [hz]
    simp
termination_by len - i
decreasing_by all_goals omega

theorem mapM_extract1_64 (res : F64x2) :
    (List.range 1).mapM res.extract = some [res.x0] := rfl

theorem mapM_extract2_64 (res : F64x2) :
    (List.range 2).mapM res.extract = some [res.x0, res.x1] := rfl

theorem load_F64x2 {l : List Fl} {i : Nat} (h : i + 1 < l.length) :
    F64x2.load l i = some ⟨l.getD i fl0, l.getD (i+1) fl0⟩ := by
  unfold F64x2.load
  rw [get?_of_lt (show i < l.length by omega), get?_of_lt h]

theorem regsBinF64_tail {l r : List Fl} {i : Nat}
    (hl : l.length = i + 1) (hr : r.length = i + 1) :
    regsBinF64 l r (i+1) i =
      some (1, ⟨l.getD i fl0, fl0⟩, ⟨r.getD i fl0, fl0⟩) := by
  unfold regsBinF64
  rw [if_pos (show i + 1 - i < 2 by omega)]
  rw [get?_of_lt (show i < l.length by omega), get?_of_lt (show i < r.length by omega)]

theorem regsBinF64_full {l r : List Fl} {len i : Nat}
    (hl : l.length = len) (hr : r.length = len) (h2 : 2 ≤ len - i) :
    regsBinF64 l r len i =
      some (2, ⟨l.getD i fl0, l.getD (i+1) fl0⟩, ⟨r.getD i fl0, r.getD (i+1) fl0⟩) := by
  unfold regsBinF64
  rw [if_neg (show ¬ (len - i < 2) by omega)]
  rw [load_F64x2 (show i + 1 < l.length by omega),
    load_F64x2 (show i + 1 < r.length by omega)]

/-- Closed form of the f64 binary chunking loop: straight element-wise
application, with no reversal — the f64 tail (a single element) is
handled in order. -/
theorem binChunkF64_spec (f : Fl → Fl → Fl) (l r : List Fl) (len i : Nat)
    (acc : List Fl) (hl : l.length = len) (hr : r.length = len) :
    binChunkF64 f l r len i acc =
      some (acc ++ (List.range' i (len - i)).map
        (fun p => f (l.getD p fl0) (r.getD p fl0))) := by
  rw [binChunkF64]
  by_cases h : i < len
  · rw [dif_pos h]
    by_cases ht : len - i < 2
    · obtain rfl : len = i + 1 := by omega
      rw [regsBinF64_tail hl hr]
      simp only [F64x2.map2, mapM_extract1_64]
      rw [binChunkF64_spec f l r (i+1) (i+2) _ hl hr]
      have hz : i + 1 - (i + 2) = 0 := by omega
      have hs : i + 1 - i = 1 := by omega
      rw [hz, hs, range'_one]
      simp
    · rw [regsBinF64_full hl hr (by omega)]
      simp only [F64x2.map2, mapM_extract2_64]
      rw [binChunkF64_spec f l r len (i+2) _ hl hr]
      have hsplit : List.range' i (len - i) =
          List.range' i 2 ++ List.range' (i + 2) (len - (i + 2)) := by
        have h4 : len - i = (len - (i + 2)) + 2 := by omega
        rw [h4]
        have h5 := List.range'_append i 2 (len - (i + 2)) 1
        rw [Nat.one_mul] at h5
        exact h5.symm
      rw [hsplit, List.map_append, range'_two]
      simp
  · rw [dif_neg h]
    have hz : len - i = 0 := by omega
    rw [hz]
    simp
termination_by len - i
decreasing_by all_goals omega

/-- Closed form of the f64 negation chunking loop. -/
theorem negChunkF64_spec (l : List Fl) (len i : Nat) (acc : List Fl)
    (hl : l.length = len) :
    negChunkF64 l len i acc =
      some (acc ++ (List.range' i (len - i)).map
        (fun p => fneg (l.getD p fl0))) := by
  rw [negChunkF64]
  by_cases h : i < len
  · rw [dif_pos h]
    by_cases ht : len - i < 2
    · obtain rfl : len = i + 1 := by omega
      rw [if_pos (show i + 1 - i < 2 by omega)]
      rw [get?_of_lt (show i < l.length by omega)]
      simp only [F64x2.map1, mapM_extract1_64]
      rw [negChunkF64_spec l (i+1) (i+2) _ hl]
      have hz : i + 1 - (i + 2) = 0 := by omega
      have hs : i + 1 - i = 1 := by omega
      rw [hz, hs, range'_one]
      simp
    · rw [if_neg ht]
      rw [load_F64x2 (show i + 1 < l.length by omega)]
      simp only [F64x2.map1, mapM_extract2_64]
      rw [negChunkF64_spec l len (i+2) _ hl]
      have hsplit : List.range' i (len - i) =
          List.range' i 2 ++ List.range' (i + 2) (len - (i + 2)) := by
        have h4 : len - i = (len - (i + 2)) + 2 := by omega
        rw [h4]
        have h5 := List.range'_append i 2 (len - (i + 2)) 1
        rw [Nat.one_mul] at h5
        exact h5.symm
      rw [hsplit, List.map_append, range'_two]
      simp
  · rw [dif_neg h]
    have hz : len - i = 0 := by omega
    rw [hz]
    simp
termination_by len - i
decreasing_by all_goals omega

/-- Closed form of the f64 equality chunking loop. -/
theorem eqChunkF64_spec (l r : List Fl) (len i : Nat)
    (hl : l.length = len) (hr : r.length = len) :
    eqChunkF64 l r len i =
      some ((List.range' i (len - i)).all
        (fun p => feq (l.getD p fl0) (r.getD p fl0))) := by
  rw [eqChunkF64]
  by_cases h : i < len
  · rw [dif_pos h]
    by_cases ht : len - i < 2
    · obtain rfl : len = i + 1 := by omega
      rw [regsBinF64_tail hl hr]
      rw [eqChunkF64_spec l r (i+1) (i+2) hl hr]
      have hz : i + 1 - (i + 2) = 0 := by omega
      have hs : i + 1 - i = 1 := by omega
      rw [hz, hs, range'_one]
      simp [if_bang_bool, F64x2.eqAll, feq_fl0]
      cases hb0 : feq (l[i]?.getD fl0) (r[i]?.getD fl0) <;> simp [hb0]
    · rw [regsBinF64_full hl hr (by omega)]
      rw [eqChunkF64_spec l r len (i+2) hl hr]
      have hsplit : List.range' i (len - i) =
          List.range' i 2 ++ List.range' (i + 2) (len - (i + 2)) := by
        have h4 : len - i = (len - (i + 2)) + 2 := by omega
        rw [h4]
        have h5 := List.range'_append i 2 (len - (i + 2)) 1
        rw [Nat.one_mul] at h5
        exact h5.symm
      rw [hsplit, range'_two]
      simp [if_bang_bool, F64x2.eqAll, Bool.and_assoc]
      cases hb0 : feq (l[i]?.getD fl0) (r[i]?.getD fl0) <;>
        cases hb1 : feq (l[i+1]?.getD fl0) (r[i+1]?.getD fl0) <;>
          simp [hb0, hb1]
  · rw [dif_neg h]
    have hz : len - i = 0 := by omega
    rw [hz]
    simp
termination_by len - i
decreasing_by all_goals omega

theorem range_eq_range0 (n : Nat) : List.range n = List.range' 0 n :=
  List.range_eq_range' n

theorem addF32_model {lhs rhs : Vector} (h : lhs.data.length = rhs.data.length) :
    addF32 lhs rhs = some (Except.ok ⟨modelBinF32 fadd lhs.data rhs.data⟩) := by
  unfold addF32
  rw [if_pos h,
    binChunkF32_spec fadd lhs.data rhs.data lhs.data.length 0 [] rfl h.symm (by omega)]
  simp [modelBinF32, range_eq_range0]

theorem subF32_model {lhs rhs : Vector} (h : lhs.data.length = rhs.data.length) :
    subF32 lhs rhs = some (Except.ok ⟨modelBinF32 fsub lhs.data rhs.data⟩) := by
  unfold subF32
  rw [if_pos h,
    binChunkF32_spec fsub lhs.data rhs.data lhs.data.length 0 [] rfl h.symm (by omega)]
  simp [modelBinF32, range_eq_range0]

theorem mulF32_model {lhs rhs : Vector} (h : lhs.data.length = rhs.data.length) :
    mulF32 lhs rhs = some (Except.ok ⟨modelBinF32 fmul lhs.data rhs.data⟩) := by
  unfold mulF32
  rw [if_pos h,
    binChunkF32_spec fmul lhs.data rhs.data lhs.data.length 0 [] rfl h.symm (by omega)]
  simp [modelBinF32, range_eq_range0]

theorem divF32_model {lhs rhs : Vector} (h : lhs.data.length = rhs.data.length) :
    divF32 lhs rhs = some (Except.ok ⟨modelBinF32 fdiv lhs.data rhs.data⟩) := by
  unfold divF32
  rw [if_pos h,
    binChunkF32_spec fdiv lhs.data rhs.data lhs.data.length 0 [] rfl h.symm (by omega)]
  simp [modelBinF32, range_eq_range0]

theorem negF32_model (v : Vector) : negF32 v = some ⟨modelNegF32 v.data⟩ := by
  unfold negF32
  rw [negChunkF32_spec v.data v.data.length 0 [] rfl (by omega)]
  simp [modelNegF32, range_eq_range0]

theorem eqF32_model {lhs rhs : Vector} (h : lhs.data.length = rhs.data.length) :
    eqF32 lhs rhs =
      some ((List.range lhs.data.length).all
        (fun p => feq (lhs.data.getD p fl0) (rhs.data.getD p fl0))) := by
  unfold eqF32
  rw [if_pos h, eqChunkF32_spec lhs.data rhs.data lhs.data.length 0 rfl h.symm (by omega)]
  rw [range_eq_range0]
  simp

theorem addF64_model {lhs rhs : Vector} (h : lhs.data.length = rhs.data.length) :
    addF64 lhs rhs = some (Except.ok ⟨modelBinF64 fadd lhs.data rhs.data⟩) := by
  unfold addF64
  rw [if_pos h,
    binChunkF64_spec fadd lhs.data rhs.data lhs.data.length 0 [] rfl h.symm]
  simp [modelBinF64, range_eq_range0]

theorem subF64_model {lhs rhs : Vector} (h : lhs.data.length = rhs.data.length) :
    subF64 lhs rhs = some (Except.ok ⟨modelBinF64 fsub lhs.data rhs.data⟩) := by
  unfold subF64
  rw [if_pos h,
    binChunkF64_spec fsub lhs.data rhs.data lhs.data.length 0 [] rfl h.symm]
  simp [modelBinF64, range_eq_range0]

theorem mulF64_model {lhs rhs : Vector} (h : lhs.data.length = rhs.data.length) :
    mulF64 lhs rhs = some (Except.ok ⟨modelBinF64 fmul lhs.data rhs.data⟩) := by
  unfold mulF64
  rw [if_pos h,
    binChunkF64_spec fmul lhs.data rhs.data lhs.data.length 0 [] rfl h.symm]
  simp [modelBinF64, range_eq_range0]

theorem divF64_model {lhs rhs : Vector} (h : lhs.data.length = rhs.data.length) :
    divF64 lhs rhs = some (Except.ok ⟨modelBinF64 fdiv lhs.data rhs.data⟩) := by
  unfold divF64
  rw [if_pos h,
    binChunkF64_spec fdiv lhs.data rhs.data lhs.data.length 0 [] rfl h.symm]
  simp [modelBinF64, range_eq_range0]

theorem negF64_model (v : Vector) : negF64 v = some ⟨modelNegF64 v.data⟩ := by
  unfold negF64
  rw [negChunkF64_spec v.data v.data.length 0 [] rfl]
  simp [modelNegF64, range_eq_range0]

theorem eqF64_model {lhs rhs : Vector} (h : lhs.data.length = rhs.data.length) :
    eqF64 lhs rhs =
      some ((List.range lhs.data.length).all
        (fun p => feq (lhs.data.getD p fl0) (rhs.data.getD p fl0))) := by
  unfold eqF64
  rw [if_pos h, eqChunkF64_spec lhs.data rhs.data lhs.data.length 0 rfl h.symm]
  rw [range_eq_range0]
  simp

theorem getD_map_range (g : Nat → Fl) {n p : Nat} (h : p < n) :
    ((List.range n).map g).getD p fl0 = g p := by
  have hlen : p < ((List.range n).map g).length := by simp [h]
  rw [List.getD_eq_getElem _ _ hlen]
  simp

theorem length_modelBinF32 (f : Fl → Fl → Fl) (l r : List Fl) :
    (modelBinF32 f l r).length = l.length := by
  simp [modelBinF32]

theorem length_modelNegF32 (l : List Fl) :
    (modelNegF32 l).length = l.length := by
  simp [modelNegF32]

theorem length_modelBinF64 (f : Fl → Fl → Fl) (l r : List Fl) :
    (modelBinF64 f l r).length = l.length := by
  simp [modelBinF64]

theorem length_modelNegF64 (l : List Fl) :
    (modelNegF64 l).length = l.length := by
  simp [modelNegF64]

instance : DecidableEq (Except String Vector) := fun x y =>
  match x, y with
  | .error a, .error b =>
    match decEq a b with
    | isTrue h => isTrue (h ▸ rfl)
    | isFalse h => isFalse (fun hh => h (Except.error.inj hh))
  | .error _, .ok _ => isFalse (fun hh => Except.noConfusion hh)
  | .ok _, .error _ => isFalse (fun hh => Except.noConfusion hh)
  | .ok a, .ok b =>
    match decEq a b with
    | isTrue h => isTrue (h ▸ rfl)
    | isFalse h => isFalse (fun hh => h (Except.ok.inj hh))

/-- A float value is finite when it is a (possibly signed) zero or a
nonzero finite number — not an infinity and not NaN. -/
def Fl.isFinite : Fl → Bool
  | .num _ => true
  | .negZero => true
  | .inf => false
  | .negInf => false
  | .nan => false

/-- IEEE `==` is reflexive on everything except NaN. -/
theorem feq_self {x : Fl} (h : x ≠ Fl.nan) : feq x x = true := by
  cases x <;> simp [feq] at h ⊢

/-- IEEE negation is an involution (on every value, NaN included). -/
theorem fneg_fneg (x : Fl) : fneg (fneg x) = x := by
  cases x with
  | num q =>
    by_cases hq : q = 0 <;> simp [fneg, hq]
  | negZero => simp [fneg]
  | inf => rfl
  | negInf => rfl
  | nan => rfl

/-!
### The claims
-/

/-- C1: the claim states that every binary operator on equal-length
vectors returns the element-wise result `output[i] = lhs[i] <op> rhs[i]`,
bit-identical to a naive scalar application, for every length.  The f32
code violates this: in a final partial chunk the tail loop files the
element at distance `d` from the end into lane `d - 1`, reversing the
tail.  At length 2 (not a multiple of the f32 lane width 4),
`[1,2] + [10,20]` returns `[22,11]`, whereas the scalar element-wise
result is `[11,22]`. -/
theorem addF32_len2_tail_reversed :
    addF32 (Vector.new [Fl.num 1, Fl.num 2]) (Vector.new [Fl.num 10, Fl.num 20])
      = some (Except.ok (Vector.new [Fl.num 22, Fl.num 11]))
    ∧ List.zipWith fadd [Fl.num 1, Fl.num 2] [Fl.num 10, Fl.num 20]
      = [Fl.num 11, Fl.num 22]
    ∧ Vector.new [Fl.num 22, Fl.num 11] ≠ Vector.new [Fl.num 11, Fl.num 22] := by
  refine ⟨?_, ?_, ?_⟩
  · rw [addF32_model (by decide)]
    with_unfolding_all decide
  · with_unfolding_all decide
  · with_unfolding_all decide

/-- C2: the claim states `output[i] = -input[i]` for every index, and in
particular `-[1.0, -2.0, 0.0] = [-1.0, 2.0, -0.0]`.  The f32 negation
reverses the tail chunk: the code actually returns `[-0.0, 2.0, -1.0]`,
the reversal of the claimed vector (lengths are still preserved). -/
theorem negF32_len3_tail_reversed :
    negF32 (Vector.new [Fl.num 1, Fl.num (-2), Fl.num 0])
      = some (Vector.new [Fl.negZero, Fl.num 2, Fl.num (-1)])
    ∧ List.map fneg [Fl.num 1, Fl.num (-2), Fl.num 0]
      = [Fl.num (-1), Fl.num 2, Fl.negZero]
    ∧ Vector.new [Fl.negZero, Fl.num 2, Fl.num (-1)]
      ≠ Vector.new [Fl.num (-1), Fl.num 2, Fl.negZero] := by
  refine ⟨?_, ?_, ?_⟩
  · rw [negF32_model]
    with_unfolding_all decide
  · with_unfolding_all decide
  · with_unfolding_all decide

/-- C3: division by zero indeed yields infinity or NaN and never a
fault, but the claim also localizes it to "the corresponding output
element", and gives `[1.0, 0.0] / [1.0, 0.0] = [1.0, NaN]`.  For f32,
length 2 is a tail chunk and comes out reversed: the code returns
`[NaN, 1.0]`.  (The f64 code, whose tail is a single element, returns
the claimed `[1.0, NaN]`.) -/
theorem divF32_len2_tail_reversed :
    divF32 (Vector.new [Fl.num 1, Fl.num 0]) (Vector.new [Fl.num 1, Fl.num 0])
      = some (Except.ok (Vector.new [Fl.nan, Fl.num 1]))
    ∧ divF64 (Vector.new [Fl.num 1, Fl.num 0]) (Vector.new [Fl.num 1, Fl.num 0])
      = some (Except.ok (Vector.new [Fl.num 1, Fl.nan]))
    ∧ Vector.new [Fl.nan, Fl.num 1] ≠ Vector.new [Fl.num 1, Fl.nan] := by
  refine ⟨?_, ?_, ?_⟩
  · rw [divF32_model (by decide)]
    with_unfolding_all decide
  · rw [divF64_model (by decide)]
    with_unfolding_all decide
  · with_unfolding_all decide

/-- C4: whenever the operand lengths differ, each of the eight binary
arithmetic entry points (four operators × two precisions) returns the
`ShapeMismatch` error naming its operator, and nothing else — no
computed result, no panic, no partial output. -/
theorem binop_shape_mismatch (lhs rhs : Vector)
    (h : lhs.data.length ≠ rhs.data.length) :
    addF32 lhs rhs = some (Except.error "Vectors are not conformable for addition.")
    ∧ subF32 lhs rhs = some (Except.error "Vectors are not conformable for subtraction.")
    ∧ mulF32 lhs rhs = some (Except.error "Vectors are not conformable for multiplication.")
    ∧ divF32 lhs rhs = some (Except.error "Vectors are not conformable for division.")
    ∧ addF64 lhs rhs = some (Except.error "Vectors are not conformable for addition.")
    ∧ subF64 lhs rhs = some (Except.error "Vectors are not conformable for subtraction.")
    ∧ mulF64 lhs rhs = some (Except.error "Vectors are not conformable for multiplication.")
    ∧ divF64 lhs rhs = some (Except.error "Vectors are not conformable for division.") := by
  unfold addF32 subF32 mulF32 divF32 addF64 subF64 mulF64 divF64
  simp [h]

/-- Witness for C4 at the spec's own scenario: a length-3 and a
length-4 vector are not conformable for addition. -/
theorem binop_shape_mismatch_witness :
    addF32 (Vector.new [fl0, fl0, fl0]) (Vector.new [fl0, fl0, fl0, fl0])
      = some (Except.error "Vectors are not conformable for addition.") :=
  (binop_shape_mismatch (Vector.new [fl0, fl0, fl0])
    (Vector.new [fl0, fl0, fl0, fl0]) (by decide)).1

/-- C5: equality always returns a plain boolean (`some`, never a
panic): `false` whenever the lengths differ, and on equal lengths
exactly the conjunction of lane-wise IEEE comparisons over all
corresponding pairs; consequently a vector holding NaN at some position
compares unequal to itself. -/
theorem eq_ieee_characterization (lhs rhs : Vector) :
    eqF32 lhs rhs = some (decide (lhs.data.length = rhs.data.length)
        && (List.range lhs.data.length).all
             (fun p => feq (lhs.data.getD p fl0) (rhs.data.getD p fl0)))
    ∧ eqF64 lhs rhs = some (decide (lhs.data.length = rhs.data.length)
        && (List.range lhs.data.length).all
             (fun p => feq (lhs.data.getD p fl0) (rhs.data.getD p fl0)))
    ∧ (∀ i, i < lhs.data.length → lhs.data.getD i fl0 = Fl.nan →
        eqF32 lhs lhs = some false ∧ eqF64 lhs lhs = some false) := by
  have h32 : eqF32 lhs rhs = some (decide (lhs.data.length = rhs.data.length)
      && (List.range lhs.data.length).all
           (fun p => feq (lhs.data.getD p fl0) (rhs.data.getD p fl0))) := by
    by_cases h : lhs.data.length = rhs.data.length
    · rw [eqF32_model h]
      simp [h]
    · unfold eqF32
      rw [if_neg h]
      simp [h]
  have h64 : eqF64 lhs rhs = some (decide (lhs.data.length = rhs.data.length)
      && (List.range lhs.data.length).all
           (fun p => feq (lhs.data.getD p fl0) (rhs.data.getD p fl0))) := by
    by_cases h : lhs.data.length = rhs.data.length
    · rw [eqF64_model h]
      simp [h]
    · unfold eqF64
      rw [if_neg h]
      simp [h]
  refine ⟨h32, h64, ?_⟩
  intro i hi hnan
  have hall : (List.range lhs.data.length).all
      (fun p => feq (lhs.data.getD p fl0) (lhs.data.getD p fl0)) = false :=
    List.all_eq_false.mpr ⟨i, List.mem_range.mpr hi, by
      rw [List.getD_eq_getElem?_getD] at hnan
      simp [hnan, feq]⟩
  constructor
  · rw [eqF32_model rfl, hall]
  · rw [eqF64_model rfl, hall]

/-- Witness for C5: a singleton NaN vector compares unequal to itself
in both precisions. -/
theorem eq_ieee_characterization_witness :
    eqF32 (Vector.new [Fl.nan]) (Vector.new [Fl.nan]) = some false
    ∧ eqF64 (Vector.new [Fl.nan]) (Vector.new [Fl.nan]) = some false :=
  (eq_ieee_characterization (Vector.new [Fl.nan]) (Vector.new [Fl.nan])).2.2
    0 (by decide) (by decide)

/-- C6 counterexample: the claim says `Equals(v, Clone(v))` is *always*
true, but for `v = [NaN]` the clone compares unequal to the original
(NaN is not IEEE-equal to itself), so equality returns `false`. -/
theorem eq_clone_nan_cex :
    eqF32 (Vector.new [Fl.nan]) ((Vector.new [Fl.nan]).clone) = some false := by
  rw [eqF32_model (by decide)]
  decide

/-- C6 as amended: `Equals(v, Clone(v))` is true for every vector none
of whose elements is NaN; and `Equals(v, w)` is false whenever the
lengths agree and some corresponding pair is not IEEE-equal (in
particular when only the last, tail element differs). -/
theorem eq_clone_amended (v w : Vector) :
    ((∀ i, i < v.data.length → v.data.getD i fl0 ≠ Fl.nan) →
      eqF32 v v.clone = some true ∧ eqF64 v v.clone = some true)
    ∧ (v.data.length = w.data.length →
      ∀ i, i < v.data.length → feq (v.data.getD i fl0) (w.data.getD i fl0) = false →
        eqF32 v w = some false ∧ eqF64 v w = some false) := by
  constructor
  · intro hno
    have hclone : v.clone = v := rfl
    rw [hclone]
    have hall : (List.range v.data.length).all
        (fun p => feq (v.data.getD p fl0) (v.data.getD p fl0)) = true := by
      rw [List.all_eq_true]
      intro x hx
      exact feq_self (hno x (List.mem_range.mp hx))
    exact ⟨by rw [eqF32_model rfl, hall], by rw [eqF64_model rfl, hall]⟩
  · intro hlen i hi hbad
    have hall : (List.range v.data.length).all
        (fun p => feq (v.data.getD p fl0) (w.data.getD p fl0)) = false :=
      List.all_eq_false.mpr ⟨i, List.mem_range.mpr hi, by
        rw [List.getD_eq_getElem?_getD, List.getD_eq_getElem?_getD] at hbad
        simp [hbad]⟩
    exact ⟨by rw [eqF32_model hlen, hall], by rw [eqF64_model hlen, hall]⟩

/-- Witness for C6 as amended: a NaN-free vector equals its clone, and
two vectors differing only in the last element compare unequal. -/
theorem eq_clone_amended_witness :
    eqF32 (Vector.new [Fl.num 1, Fl.num 2]) ((Vector.new [Fl.num 1, Fl.num 2]).clone)
      = some true
    ∧ eqF32 (Vector.new [Fl.num 1, Fl.num 2]) (Vector.new [Fl.num 1, Fl.num 3])
      = some false :=
  ⟨((eq_clone_amended (Vector.new [Fl.num 1, Fl.num 2])
      (Vector.new [Fl.num 1, Fl.num 2])).1 (by decide)).1,
   ((eq_clone_amended (Vector.new [Fl.num 1, Fl.num 2])
      (Vector.new [Fl.num 1, Fl.num 3])).2 (by decide) 1 (by decide) (by decide)).1⟩

theorem getD_modelNegF32 {l : List Fl} {p : Nat} (h : p < l.length) :
    (modelNegF32 l).getD p fl0 = fneg (l.getD (permIdx4 l.length p) fl0) :=
  getD_map_range _ h

theorem getD_modelNegF64 {l : List Fl} {p : Nat} (h : p < l.length) :
    (modelNegF64 l).getD p fl0 = fneg (l.getD p fl0) :=
  getD_map_range _ h

/-- Double f32 negation restores the original list: the tail reversal
is an involution on positions, and `fneg` an involution on values. -/
theorem modelNegF32_invol (l : List Fl) : modelNegF32 (modelNegF32 l) = l := by
  have hlen : (modelNegF32 l).length = l.length := length_modelNegF32 l
  apply List.ext_getElem
  · rw [length_modelNegF32, length_modelNegF32]
  · intro p h1 h2
    have hp : p < l.length := h2
    have hq : permIdx4 l.length p < l.length := permIdx4_lt hp
    have e1 : (modelNegF32 (modelNegF32 l))[p]
        = (modelNegF32 (modelNegF32 l)).getD p fl0 :=
      (List.getD_eq_getElem _ fl0 h1).symm
    have e2 : (modelNegF32 (modelNegF32 l)).getD p fl0
        = fneg ((modelNegF32 l).getD (permIdx4 (modelNegF32 l).length p) fl0) :=
      getD_modelNegF32 (by rw [hlen]; exact hp)
    have e3 : (modelNegF32 l).getD (permIdx4 (modelNegF32 l).length p) fl0
        = fneg (l.getD (permIdx4 l.length (permIdx4 l.length p)) fl0) := by
      rw [hlen]
      exact getD_modelNegF32 hq
    rw [e1, e2, e3, permIdx4_invol hp, fneg_fneg]
    exact List.getD_eq_getElem l fl0 h2

/-- Double f64 negation restores the original list. -/
theorem modelNegF64_invol (l : List Fl) : modelNegF64 (modelNegF64 l) = l := by
  have hlen : (modelNegF64 l).length = l.length := length_modelNegF64 l
  apply List.ext_getElem
  · rw [length_modelNegF64, length_modelNegF64]
  · intro p h1 h2
    have hp : p < l.length := h2
    have e1 : (modelNegF64 (modelNegF64 l))[p]
        = (modelNegF64 (modelNegF64 l)).getD p fl0 :=
      (List.getD_eq_getElem _ fl0 h1).symm
    have e2 : (modelNegF64 (modelNegF64 l)).getD p fl0
        = fneg ((modelNegF64 l).getD p fl0) :=
      getD_modelNegF64 (by rw [hlen]; exact hp)
    rw [e1, e2, getD_modelNegF64 hp, fneg_fneg]
    exact List.getD_eq_getElem l fl0 h2

/-- C7: negating twice gives back the original vector element-wise, for
vectors of finite values, in both precisions.  (The f32 tail reversal
cancels itself on the second pass, and IEEE negation is an involution,
so the double negation is exact.) -/
theorem neg_involution (v : Vector)
    (_hfin : ∀ i, i < v.data.length → (v.data.getD i fl0).isFinite = true) :
    (negF32 v).bind negF32 = some v ∧ (negF64 v).bind negF64 = some v := by
  constructor
  · rw [negF32_model v]
    show negF32 ⟨modelNegF32 v.data⟩ = some v
    rw [negF32_model]
    show some (⟨modelNegF32 (modelNegF32 v.data)⟩ : Vector) = some v
    rw [modelNegF32_invol]
  · rw [negF64_model v]
    show negF64 ⟨modelNegF64 v.data⟩ = some v
    rw [negF64_model]
    show some (⟨modelNegF64 (modelNegF64 v.data)⟩ : Vector) = some v
    rw [modelNegF64_invol]

/-- Witness for C7 at a length-3 vector (a tail chunk for f32 and an
odd length for f64). -/
theorem neg_involution_witness :
    (negF32 (Vector.new [Fl.num 1, Fl.num 2, Fl.num 3])).bind negF32
      = some (Vector.new [Fl.num 1, Fl.num 2, Fl.num 3])
    ∧ (negF64 (Vector.new [Fl.num 1, Fl.num 2, Fl.num 3])).bind negF64
      = some (Vector.new [Fl.num 1, Fl.num 2, Fl.num 3]) :=
  neg_involution (Vector.new [Fl.num 1, Fl.num 2, Fl.num 3]) (by decide)

/-- C8: every valid binary operation returns a vector of exactly the
common operand length, negation returns a vector of its operand's
length, and all of them produce a new vector rather than mutating
anything (the embedding is functional; the loops terminate with output
length exactly N for every N, multiple of the lane width or not). -/
theorem length_preservation (lhs rhs v : Vector)
    (h : lhs.data.length = rhs.data.length) :
    (∃ out, addF32 lhs rhs = some (Except.ok out)
      ∧ out.data.length = lhs.data.length ∧ out.data.length = rhs.data.length)
    ∧ (∃ out, subF32 lhs rhs = some (Except.ok out)
      ∧ out.data.length = lhs.data.length ∧ out.data.length = rhs.data.length)
    ∧ (∃ out, mulF32 lhs rhs = some (Except.ok out)
      ∧ out.data.length = lhs.data.length ∧ out.data.length = rhs.data.length)
    ∧ (∃ out, divF32 lhs rhs = some (Except.ok out)
      ∧ out.data.length = lhs.data.length ∧ out.data.length = rhs.data.length)
    ∧ (∃ out, addF64 lhs rhs = some (Except.ok out)
      ∧ out.data.length = lhs.data.length ∧ out.data.length = rhs.data.length)
    ∧ (∃ out, subF64 lhs rhs = some (Except.ok out)
      ∧ out.data.length = lhs.data.length ∧ out.data.length = rhs.data.length)
    ∧ (∃ out, mulF64 lhs rhs = some (Except.ok out)
      ∧ out.data.length = lhs.data.length ∧ out.data.length = rhs.data.length)
    ∧ (∃ out, divF64 lhs rhs = some (Except.ok out)
      ∧ out.data.length = lhs.data.length ∧ out.data.length = rhs.data.length)
    ∧ (∃ out, negF32 v = some out ∧ out.data.length = v.data.length)
    ∧ (∃ out, negF64 v = some out ∧ out.data.length = v.data.length) := by
  refine ⟨⟨_, addF32_model h, ?_, ?_⟩, ⟨_, subF32_model h, ?_, ?_⟩,
    ⟨_, mulF32_model h, ?_, ?_⟩, ⟨_, divF32_model h, ?_, ?_⟩,
    ⟨_, addF64_model h, ?_, ?_⟩, ⟨_, subF64_model h, ?_, ?_⟩,
    ⟨_, mulF64_model h, ?_, ?_⟩, ⟨_, divF64_model h, ?_, ?_⟩,
    ⟨_, negF32_model v, ?_⟩, ⟨_, negF64_model v, ?_⟩⟩ <;>
  simp [length_modelBinF32, length_modelBinF64,
    length_modelNegF32, length_modelNegF64, h]

/-- Witness for C8 at length 3 (not a multiple of the f32 lane width). -/
theorem length_preservation_witness :
    ∃ out, addF32 (Vector.new [Fl.num 1, Fl.num 2, Fl.num 3])
        (Vector.new [Fl.num 4, Fl.num 5, Fl.num 6]) = some (Except.ok out)
      ∧ out.data.length = (Vector.new [Fl.num 1, Fl.num 2, Fl.num 3]).data.length
      ∧ out.data.length = (Vector.new [Fl.num 4, Fl.num 5, Fl.num 6]).data.length :=
  (length_preservation (Vector.new [Fl.num 1, Fl.num 2, Fl.num 3])
    (Vector.new [Fl.num 4, Fl.num 5, Fl.num 6])
    (Vector.new [Fl.num 1, Fl.num 2, Fl.num 3]) (by decide)).1

/-- C9: indexed access returns the stored element exactly when the
index is in bounds, and faults (modelled `none`) exactly when the index
is at least the length. -/
theorem index_in_and_out_of_bounds (v : Vector) (i : Nat) :
    (∀ h : i < v.data.length, v.index i = some (v.data.get ⟨i, h⟩))
    ∧ (v.data.length ≤ i → v.index i = none) := by
  constructor
  · intro h
    unfold Vector.index
    rw [get?_of_lt h, List.getD_eq_getElem _ _ h, List.get_eq_getElem]
  · intro h
    unfold Vector.index
    exact List.get?_eq_none.mpr h

/-- Witness for C9: reading position 0 of a singleton succeeds with the
stored element; reading position 1 faults. -/
theorem index_in_and_out_of_bounds_witness :
    Vector.index (Vector.new [Fl.num 7]) 0 = some (Fl.num 7)
    ∧ Vector.index (Vector.new [Fl.num 7]) 1 = none := by
  constructor
  · have h := (index_in_and_out_of_bounds (Vector.new [Fl.num 7]) 0).1 (by decide)
    simpa using h
  · exact (index_in_and_out_of_bounds (Vector.new [Fl.num 7]) 1).2 (by decide)

/-- C10: none of the twelve operations (six per precision) ever
panics, for operands of any lengths, equal or not, zero included: in
the embedding every panic is `none`, and every operation always returns
`some`.  In particular the `unreachable!()` arms of the f32 tail loops
are never taken (the distance to the end is always 1, 2 or 3 there),
and no slice access is out of bounds. -/
theorem ops_never_panic (lhs rhs v : Vector) :
    (addF32 lhs rhs).isSome = true ∧ (subF32 lhs rhs).isSome = true
    ∧ (mulF32 lhs rhs).isSome = true ∧ (divF32 lhs rhs).isSome = true
    ∧ (negF32 v).isSome = true ∧ (eqF32 lhs rhs).isSome = true
    ∧ (addF64 lhs rhs).isSome = true ∧ (subF64 lhs rhs).isSome = true
    ∧ (mulF64 lhs rhs).isSome = true ∧ (divF64 lhs rhs).isSome = true
    ∧ (negF64 v).isSome = true ∧ (eqF64 lhs rhs).isSome = true := by
  by_cases h : lhs.data.length = rhs.data.length
  · exact ⟨by rw [addF32_model h]; rfl, by rw [subF32_model h]; rfl,
      by rw [mulF32_model h]; rfl, by rw [divF32_model h]; rfl,
      by rw [negF32_model]; rfl, by rw [eqF32_model h]; rfl,
      by rw [addF64_model h]; rfl, by rw [subF64_model h]; rfl,
      by rw [mulF64_model h]; rfl, by rw [divF64_model h]; rfl,
      by rw [negF64_model]; rfl, by rw [eqF64_model h]; rfl⟩
  · exact ⟨by unfold addF32; rw [if_neg h]; rfl, by unfold subF32; rw [if_neg h]; rfl,
      by unfold mulF32; rw [if_neg h]; rfl, by unfold divF32; rw [if_neg h]; rfl,
      by rw [negF32_model]; rfl, by unfold eqF32; rw [if_neg h]; rfl,
      by unfold addF64; rw [if_neg h]; rfl, by unfold subF64; rw [if_neg h]; rfl,
      by unfold mulF64; rw [if_neg h]; rfl, by unfold divF64; rw [if_neg h]; rfl,
      by rw [negF64_model]; rfl, by unfold eqF64; rw [if_neg h]; rfl⟩

end NumRs
